import Mathlib

/-!
Verification of the Conversation History & Summarization Engine of the
chat-web repository, as implemented in `src/src/components/Conversations.tsx`
(the `Chat` component and its helpers `fetchMessages`, `maybeSummarize`,
`send`, `saveEdit`, `deleteMsg`, `regenFrom`).

Modelling choices (shallow embedding):
* The durable store is a list of message rows kept in `created_at` order.
  Every insert appends a row stamped with the strictly increasing clock
  `nextTime`, deletes filter rows out, and updates rewrite a row in place,
  so the list order is exactly the store's order-by-`created_at`-ascending
  result (validated by the `created_at`-sortedness component of `WF` below).
  `fetchMessages` therefore returns the row list itself, matching the
  source's `order('created_at', { ascending: true })` query under the
  assumption of distinct, monotone insertion timestamps.
* Ids are Nats handed out by the counter `nextId` (the store assigns ids).
* The single active session reads its own writes and each operation ends
  with a `reload()`, so the component's React state coincides with the
  store between operations; operations are modelled as functions on the
  store, re-deriving the in-memory `messages` list via `fetchMessages` at
  operation start.  The one deliberate exception: `send` invokes
  `maybeSummarize` from the same render closure, so the compaction inside a
  dispatch sees the pre-dispatch `messages` list; `sendOp` passes that
  stale view to `maybeSummarizeCore` explicitly.
* The inference and summarizer endpoints are black boxes modelled by
  `Option String` parameters (`none` = HTTP failure, `some t` = reply `t`).
* JS strings are Lean `String`s; `slice(0, 60)` is modelled as taking 60
  characters and the regex `\s` as `Char.isWhitespace` (faithful for the
  ASCII whitespace the source manipulates).
-/

namespace ChatWeb

/-- Message role, from `type Role = 'system' | 'user' | 'assistant'`. -/
inductive Role where
  | system
  | user
  | assistant
deriving DecidableEq, Repr

/-- A persisted message row (`Message` in `src/lib/types`): store-assigned
`id`, `role`, `content`, the dense index `idx`, and the insertion timestamp
`created_at` (a logical clock). -/
structure Msg where
  id : Nat
  role : Role
  content : String
  idx : Nat
  created_at : Nat
deriving DecidableEq, Repr

/-- The durable state for one conversation: the message rows (in
`created_at` order), the conversation's `title` and `running_summary`
columns, and the store's id/timestamp counters. -/
structure Store where
  rows : List Msg
  title : String
  running_summary : String
  nextId : Nat
  nextTime : Nat
deriving DecidableEq, Repr

/-- Models `fetchMessages`: select all rows of the conversation ordered by
`created_at` ascending.  The row list is maintained in exactly that order
(see the file header and `WF`), so the query returns the list itself. -/
def fetchMessages (s : Store) : List Msg :=
  s.rows

/-- Store insert: append a row with the next fresh id and timestamp
(`supabase.from('messages').insert(...)`). -/
def insertMessage (s : Store) (role : Role) (content : String) (idx : Nat) : Store :=
  { s with
    rows := s.rows ++ [{ id := s.nextId, role := role, content := content,
                         idx := idx, created_at := s.nextTime }],
    nextId := s.nextId + 1,
    nextTime := s.nextTime + 1 }

/-- Store delete by id (`.delete().eq('id', mid)`). -/
def deleteMessage (s : Store) (mid : Nat) : Store :=
  { s with rows := s.rows.filter (fun r => r.id != mid) }

/-- Store update of a row's `idx` column (`.update({ idx: j }).eq('id', mid)`). -/
def updateIdx (s : Store) (mid : Nat) (j : Nat) : Store :=
  { s with rows := s.rows.map (fun r => if r.id = mid then { r with idx := j } else r) }

/-- Store update of a row's `content` column (`.update({ content }).eq('id', mid)`). -/
def updateContent (s : Store) (mid : Nat) (text : String) : Store :=
  { s with rows := s.rows.map (fun r => if r.id = mid then { r with content := text } else r) }

/-- The reindex loop shared by `deleteMsg` and `maybeSummarize`:
`for (let j = 0; j < fresh.length; j++) if (fresh[j].idx !== j) update idx`.
It walks the snapshot list `fresh`, updating the store, and counts the
index-update writes it issues. -/
def reindexFrom : Store → List Msg → Nat → Store × Nat
  | s, [], _ => (s, 0)
  | s, m :: rest, j =>
    if m.idx ≠ j then
      let out := reindexFrom (updateIdx s m.id j) rest (j + 1)
      (out.1, out.2 + 1)
    else
      reindexFrom s rest (j + 1)

/-- One delete-reindex pass: re-fetch the sequence and fix every row whose
stored `idx` differs from its position.  Returns the updated store and the
number of index-update writes issued. -/
def reindexPass (s : Store) : Store × Nat :=
  reindexFrom s (fetchMessages s) 0

/-- Outcome of `deleteMsg`: the turn did not exist (`if (!m) return`), the
system turn was protected (`if (i === 0) ... return`), or the row was
deleted and the sequence re-packed. -/
inductive DeleteResult where
  | noTurn
  | forbidden
  | deleted
deriving DecidableEq, Repr

/-- Models `deleteMsg(i)`: look the turn up in the current sequence, refuse
silently when it does not exist, refuse with the forbidden alert when
`i = 0`, otherwise delete the row and run the reindex pass. -/
def deleteMsgOp (s : Store) (i : Nat) : Store × DeleteResult :=
  match (fetchMessages s)[i]? with
  | none => (s, .noTurn)
  | some m =>
    if i = 0 then (s, .forbidden)
    else ((reindexPass (deleteMessage s m.id)).1, .deleted)

/-- Outcome of `regenFrom`. -/
inductive RegenResult where
  | noTurn
  | invalidRange
  | regenOk
  | regenFail
deriving DecidableEq, Repr

/-- Result of `regenFrom`: final store, outcome, and how many inference
calls were made. -/
structure RegenOut where
  store : Store
  result : RegenResult
  inferenceCalls : Nat
deriving DecidableEq, Repr

/-- Models `regenFrom(i)`: `cutAt = role === 'assistant' ? i - 1 : i`;
refuse when `cutAt < 0`; otherwise delete the tail after `cutAt`, call the
inference endpoint (outcome `reply`), and on success insert the new
assistant turn at `idx = cutAt + 1` (with the `'(no content)'` fallback for
an empty reply). -/
def regenFromOp (s : Store) (i : Nat) (reply : Option String) : RegenOut :=
  let msgs := fetchMessages s
  match msgs[i]? with
  | none => ⟨s, .noTurn, 0⟩
  | some target =>
    let cutAt : Int := if target.role = Role.assistant then (i : Int) - 1 else (i : Int)
    if cutAt < 0 then ⟨s, .invalidRange, 0⟩
    else
      let cut := cutAt.toNat
      let tail := msgs.drop (cut + 1)
      let s1 := tail.foldl (fun acc t => deleteMessage acc t.id) s
      match reply with
      | some content =>
        ⟨insertMessage s1 Role.assistant
            (if content = "" then "(no content)" else content) (cut + 1),
         .regenOk, 1⟩
      | none => ⟨s1, .regenFail, 1⟩

/-- Models `String.prototype.trim`: strip whitespace from both ends.
Defined structurally over the character list so that it evaluates inside
the kernel (the library's trim is defined by well-founded recursion and
does not reduce). -/
def jsTrim (s : String) : String :=
  ⟨((s.data.dropWhile Char.isWhitespace).reverse.dropWhile Char.isWhitespace).reverse⟩

/-- `const SUMMARIZE_AFTER = 20`. -/
def SUMMARIZE_AFTER : Nat := 20

/-- `const KEEP_RECENT = 10`. -/
def KEEP_RECENT : Nat := 10

/-- Result of the compaction pass: final store, the number of summarizer
calls made, and the window of turns whose transcript was summarized. -/
structure SummOut where
  store : Store
  summarizerCalls : Nat
  summarized : List Msg
deriving DecidableEq, Repr

/-- Models the body of `maybeSummarize` acting on the store `s` while
seeing the sequence `view` (the `messages` state captured by the calling
closure) and the conversation row of `s`.  `summ` is the summarizer
endpoint outcome.  Mirrors the source: length guard, middle window
`slice(1, max(len - KEEP_RECENT, 1))`, empty-window guard, summarizer call,
append to `running_summary` (trimming the prior text), bulk delete of the
window, and the reindex pass over a fresh fetch. -/
def maybeSummarizeCore (view : List Msg) (s : Store) (summ : Option String) : SummOut :=
  if view.length ≤ SUMMARIZE_AFTER then ⟨s, 0, []⟩
  else
    let keepHead := 1
    let cutStart := keepHead
    let cutEnd := max (view.length - KEEP_RECENT) keepHead
    let middle := (view.take cutEnd).drop cutStart
    if middle.length = 0 then ⟨s, 0, []⟩
    else
      match summ with
      | none => ⟨s, 1, middle⟩
      | some summary =>
        let running := jsTrim s.running_summary
        let newSummary := if running = "" then summary else running ++ "\n\n" ++ summary
        let s1 := { s with running_summary := newSummary }
        let s2 := middle.foldl (fun acc m => deleteMessage acc m.id) s1
        ⟨(reindexPass s2).1, 1, middle⟩

/-- The compaction pass run against an up-to-date view of the sequence, as
the spec describes it (§4.4). -/
def maybeSummarizeOp (s : Store) (summ : Option String) : SummOut :=
  maybeSummarizeCore (fetchMessages s) s summ

/-- Collapse every maximal run of whitespace characters to a single space:
the effect of `content.replace(/\s+/g, ' ')`.  The flag records whether the
previous character was part of a whitespace run. -/
def collapseWsAux : Bool → List Char → List Char
  | _, [] => []
  | prevWs, c :: rest =>
    if c.isWhitespace then
      if prevWs then collapseWsAux true rest
      else ' ' :: collapseWsAux true rest
    else
      c :: collapseWsAux false rest

/-- The title derived from the user text on the first reply:
`content.replace(/\s+/g, ' ').slice(0, 60)`. -/
def titleOf (content : String) : String :=
  ⟨(collapseWsAux false content.data).take 60⟩

/-- Models `send(text)`: trim and drop empty input, optimistically append
and persist the user turn at `idx = messages.length`, call the inference
endpoint (`reply`), and on success append the assistant turn (with the
`'(no content)'` fallback), set the title when the pre-dispatch sequence
had no non-system turns, and run `maybeSummarize` — which, being the same
render's closure, still sees the pre-dispatch `messages` list `msgs`. -/
def sendOp (s : Store) (text : String) (reply : Option String) (summ : Option String) : Store :=
  let content := (jsTrim text)
  if content = "" then s
  else
    let msgs := fetchMessages s
    let userIdx := msgs.length
    let s1 := insertMessage s Role.user content userIdx
    match reply with
    | none => s1
    | some assistantText =>
      let s2 := insertMessage s1 Role.assistant
          (if assistantText = "" then "(no content)" else assistantText) (userIdx + 1)
      let nonSystem := (msgs.filter (fun m => m.role != Role.system)).length
      let s3 := if nonSystem = 0 then { s2 with title := titleOf content } else s2
      (maybeSummarizeCore msgs s3 summ).store

/-- Models `saveEdit(i, text)`: look the turn up, silently return when it
does not exist, otherwise update its `content` column only. -/
def saveEditOp (s : Store) (i : Nat) (text : String) : Store :=
  match (fetchMessages s)[i]? with
  | none => s
  | some m => updateContent s m.id text

/-- The freshly created conversation: the seeded system turn at `idx 0`
(`role: 'system', content: 'You are a helpful assistant.', idx: 0`) and the
`'New chat'` title given by the conversation list's insert. -/
def initStore : Store :=
  { rows := [{ id := 0, role := Role.system, content := "You are a helpful assistant.",
               idx := 0, created_at := 0 }],
    title := "New chat",
    running_summary := "",
    nextId := 1,
    nextTime := 1 }

/-- The stores reachable from a fresh conversation by completed operations:
dispatch (`send`, with its embedded compaction), edit, delete, regeneration,
and a compaction pass, with arbitrary inputs and endpoint outcomes. -/
inductive Reachable : Store → Prop where
  | init : Reachable initStore
  | send (s : Store) (text : String) (reply summ : Option String) :
      Reachable s → Reachable (sendOp s text reply summ)
  | edit (s : Store) (i : Nat) (text : String) :
      Reachable s → Reachable (saveEditOp s i text)
  | del (s : Store) (i : Nat) :
      Reachable s → Reachable (deleteMsgOp s i).1
  | regen (s : Store) (i : Nat) (reply : Option String) :
      Reachable s → Reachable (regenFromOp s i reply).store
  | compact (s : Store) (summ : Option String) :
      Reachable s → Reachable (maybeSummarizeOp s summ).store

/-- Store well-formedness: row ids are distinct and below the id counter,
and `created_at` stamps are strictly increasing along the list and below
the clock — this last pair is what justifies reading the
order-by-`created_at` query result as the row list itself. -/
def WF (s : Store) : Prop :=
  (s.rows.map (·.id)).Nodup ∧
  (∀ a ∈ s.rows.map (·.id), a < s.nextId) ∧
  (s.rows.map (·.created_at)).Pairwise (· < ·) ∧
  (∀ a ∈ s.rows.map (·.created_at), a < s.nextTime)

/-- Dense indexing: the stored `idx` values, in store order, are exactly
`0..N-1`. -/
def Dense (s : Store) : Prop :=
  s.rows.map (·.idx) = List.range s.rows.length

/-- The first row of the sequence is the system turn. -/
def SysHead (s : Store) : Prop :=
  (s.rows.map (·.role)).head? = some Role.system

/-- The conversation invariant maintained by every operation. -/
def Inv (s : Store) : Prop :=
  WF s ∧ Dense s ∧ SysHead s

/-- Renumbering a snapshot list from `j`: the net effect of the reindex
loop on the rows it visits. -/
def renumberFrom : Nat → List Msg → List Msg
  | _, [] => []
  | j, m :: rest => { m with idx := j } :: renumberFrom (j + 1) rest

/-- A 21-turn sequence: the system turn at `idx 0` followed by 20
alternating user/assistant turns, ids and timestamps in step with the
positions. -/
def store21 : Store :=
  { rows := (List.range 21).map (fun k =>
      { id := k,
        role := if k = 0 then Role.system
                else if k % 2 = 1 then Role.user else Role.assistant,
        content := "m",
        idx := k,
        created_at := k }),
    title := "New chat",
    running_summary := "",
    nextId := 21,
    nextTime := 21 }

/-- `store21` with an accumulated running summary that carries surrounding
whitespace (as the summarizer endpoint may well return). -/
def store21ws : Store :=
  { store21 with running_summary := " A " }

/-- The sequence `[system, user "first"]` left behind by a dispatch whose
inference call failed: the user turn persisted, no assistant turn. -/
def storeSysUser : Store :=
  sendOp initStore "first" none none

/-- A store whose second row still carries a stale `idx` (a gap), as found
right after a raw row delete: input for exercising the reindex pass. -/
def storeGap : Store :=
  { rows := [{ id := 0, role := Role.system, content := "You are a helpful assistant.",
               idx := 0, created_at := 0 },
             { id := 7, role := Role.user, content := "hi", idx := 5, created_at := 3 }],
    title := "New chat",
    running_summary := "",
    nextId := 8,
    nextTime := 4 }

/-! ### List helpers -/

theorem list_map_id_of {l : List Msg} {f : Msg → Msg} (h : ∀ x ∈ l, f x = x) :
    l.map f = l := by
  induction l with
  | nil => rfl
  | cons a t ih =>
    simp only [List.map_cons]
    rw [h a (List.mem_cons_self a t), ih (fun x hx => h x (List.mem_cons_of_mem a hx))]

theorem msg_set_idx_eq {m : Msg} {j : Nat} (h : m.idx = j) : { m with idx := j } = m := by
  cases m
  cases h
  rfl

/-! ### Renumbering: the net effect of the reindex loop -/

theorem length_renumberFrom (j : Nat) (l : List Msg) :
    (renumberFrom j l).length = l.length := by
  induction l generalizing j with
  | nil => rfl
  | cons m rest ih => simp [renumberFrom, ih]

theorem renumberFrom_map_idx (j : Nat) (l : List Msg) :
    (renumberFrom j l).map (·.idx) = List.range' j l.length := by
  induction l generalizing j with
  | nil => rfl
  | cons m rest ih => simp [renumberFrom, List.range', ih]

theorem renumberFrom_map_id (j : Nat) (l : List Msg) :
    (renumberFrom j l).map (·.id) = l.map (·.id) := by
  induction l generalizing j with
  | nil => rfl
  | cons m rest ih => simp [renumberFrom, ih]

theorem renumberFrom_map_role (j : Nat) (l : List Msg) :
    (renumberFrom j l).map (·.role) = l.map (·.role) := by
  induction l generalizing j with
  | nil => rfl
  | cons m rest ih => simp [renumberFrom, ih]

theorem renumberFrom_map_created (j : Nat) (l : List Msg) :
    (renumberFrom j l).map (·.created_at) = l.map (·.created_at) := by
  induction l generalizing j with
  | nil => rfl
  | cons m rest ih => simp [renumberFrom, ih]

/-! ### Characterizing the reindex loop -/

theorem updateIdx_split (s : Store) (pre post : List Msg) (m : Msg) (j : Nat)
    (hrows : s.rows = pre ++ m :: post)
    (hpre : ∀ r ∈ pre, r.id ≠ m.id) (hpost : ∀ r ∈ post, r.id ≠ m.id) :
    updateIdx s m.id j = { s with rows := pre ++ { m with idx := j } :: post } := by
  unfold updateIdx
  rw [hrows]
  simp only [List.map_append, List.map_cons, if_pos rfl]
  rw [list_map_id_of (fun r hr => if_neg (hpre r hr)),
      list_map_id_of (fun r hr => if_neg (hpost r hr))]
  simp

theorem reindexFrom_eq (l : List Msg) : ∀ (pre : List Msg) (j : Nat) (s : Store),
    s.rows = pre ++ l → ((pre ++ l).map (·.id)).Nodup →
    (reindexFrom s l j).1 = { s with rows := pre ++ renumberFrom j l } := by
  induction l with
  | nil =>
    intro pre j s hrows _
    have hp : pre = s.rows := by simpa using hrows.symm
    rw [hp]
    simp only [renumberFrom, List.append_nil]
    rfl
  | cons m rest ih =>
    intro pre j s hrows hnd
    have hnd2 := hnd
    rw [List.map_append, List.nodup_append, List.map_cons, List.nodup_cons] at hnd2
    have hpre : ∀ r ∈ pre, r.id ≠ m.id := by
      intro r hr heq
      have hmem : r.id ∈ m.id :: rest.map (fun x => x.id) := by
        rw [heq]
        exact List.mem_cons_self _ _
      exact hnd2.2.2 (List.mem_map_of_mem (fun x => x.id) hr) hmem
    have hpost : ∀ r ∈ rest, r.id ≠ m.id := by
      intro r hr heq
      have hmem : m.id ∈ rest.map (fun x => x.id) := by
        rw [← heq]
        exact List.mem_map_of_mem (fun x => x.id) hr
      exact hnd2.2.1.1 hmem
    by_cases hmj : m.idx = j
    · have hstep : reindexFrom s (m :: rest) j = reindexFrom s rest (j + 1) := by
        simp [reindexFrom, hmj]
      rw [hstep]
      have hrows' : s.rows = (pre ++ [m]) ++ rest := by rw [hrows]; simp
      have hnd' : (((pre ++ [m]) ++ rest).map (·.id)).Nodup := by
        simpa [List.append_assoc] using hnd
      rw [ih (pre ++ [m]) (j + 1) s hrows' hnd']
      have hlist : (pre ++ [m]) ++ renumberFrom (j + 1) rest
          = pre ++ renumberFrom j (m :: rest) := by
        simp [renumberFrom, msg_set_idx_eq hmj]
      rw [hlist]
    · have hstep : (reindexFrom s (m :: rest) j).1
          = (reindexFrom (updateIdx s m.id j) rest (j + 1)).1 := by
        simp [reindexFrom, hmj]
      rw [hstep]
      have hupd : updateIdx s m.id j = { s with rows := pre ++ { m with idx := j } :: rest } :=
        updateIdx_split s pre rest m j hrows hpre hpost
      have hrows' : (updateIdx s m.id j).rows = (pre ++ [{ m with idx := j }]) ++ rest := by
        rw [hupd]
        simp
      have hnd' : (((pre ++ [{ m with idx := j }]) ++ rest).map (fun x : Msg => x.id)).Nodup := by
        simpa [List.append_assoc] using hnd
      rw [ih (pre ++ [{ m with idx := j }]) (j + 1) (updateIdx s m.id j) hrows' hnd']
      rw [hupd]
      have hlist : (pre ++ [{ m with idx := j }]) ++ renumberFrom (j + 1) rest
          = pre ++ renumberFrom j (m :: rest) := by
        simp [renumberFrom]
      rw [hlist]

theorem reindexPass_eq (s : Store) (hnd : (s.rows.map (·.id)).Nodup) :
    (reindexPass s).1 = { s with rows := renumberFrom 0 s.rows } := by
  have := reindexFrom_eq s.rows [] 0 s (by simp) (by simpa using hnd)
  simpa using this

theorem reindexFrom_writes_zero (l : List Msg) : ∀ (j : Nat) (s : Store),
    (reindexFrom s (renumberFrom j l) j).2 = 0 := by
  induction l with
  | nil => intro j s; rfl
  | cons m rest ih =>
    intro j s
    simp [renumberFrom, reindexFrom, ih]

theorem reindexFrom_rows_only (l : List Msg) : ∀ (j : Nat) (s : Store),
    ∃ r, (reindexFrom s l j).1 = { s with rows := r } := by
  induction l with
  | nil => intro j s; exact ⟨s.rows, rfl⟩
  | cons m rest ih =>
    intro j s
    by_cases h : m.idx = j
    · simpa [reindexFrom, h] using ih (j + 1) s
    · obtain ⟨r, hr⟩ := ih (j + 1) (updateIdx s m.id j)
      refine ⟨r, ?_⟩
      have hstep : (reindexFrom s (m :: rest) j).1
          = (reindexFrom (updateIdx s m.id j) rest (j + 1)).1 := by
        simp [reindexFrom, h]
      rw [hstep, hr]
      rfl

/-! ### Bulk deletes as filters -/

theorem foldl_delete_eq (l : List Msg) : ∀ (s : Store),
    l.foldl (fun acc m => deleteMessage acc m.id) s
      = { s with rows := s.rows.filter (fun r => l.all (fun m => r.id != m.id)) } := by
  induction l with
  | nil =>
    intro s
    simp [List.foldl_nil]
  | cons m rest ih =>
    intro s
    simp only [List.foldl_cons]
    rw [ih]
    simp only [deleteMessage, List.filter_filter]
    have hfun : (fun r : Msg => (rest.all fun m' => r.id != m'.id) && (r.id != m.id))
        = (fun r : Msg => (m :: rest).all fun m' => r.id != m'.id) := by
      funext r
      simp [List.all_cons, Bool.and_comm]
    rw [hfun]

theorem filter_drop_all_eq_take (rows : List Msg) (k : Nat)
    (h : (rows.map (fun x : Msg => x.id)).Nodup) :
    rows.filter (fun r => (rows.drop k).all (fun m => r.id != m.id)) = rows.take k := by
  set p : Msg → Bool := fun r => (rows.drop k).all (fun m => r.id != m.id) with hp
  have hsplit : rows.filter p = (rows.take k).filter p ++ (rows.drop k).filter p := by
    conv_lhs => rw [← List.take_append_drop k rows, List.filter_append]
  rw [hsplit]
  have hnd := h
  rw [← List.take_append_drop k rows, List.map_append, List.nodup_append] at hnd
  have h1 : (rows.take k).filter p = rows.take k := by
    rw [List.filter_eq_self]
    intro r hr
    rw [hp]
    rw [List.all_eq_true]
    intro m hm
    have hne : r.id ≠ m.id := by
      intro heq
      have hmm : m.id ∈ (rows.drop k).map (fun x : Msg => x.id) :=
        List.mem_map_of_mem (fun x : Msg => x.id) hm
      exact hnd.2.2 (List.mem_map_of_mem (fun x : Msg => x.id) hr)
        (by show r.id ∈ _; rw [heq]; exact hmm)
    simpa using hne
  have h2 : (rows.drop k).filter p = [] := by
    rw [List.filter_eq_nil_iff]
    intro m hm
    rw [hp]
    simp only [List.all_eq_true, not_forall]
    exact ⟨m, hm, by simp⟩
  rw [h1, h2, List.append_nil]

/-! ### Invariant preservation -/

theorem inv_init : Inv initStore := by
  unfold Inv WF Dense SysHead initStore
  decide

theorem inv_set_title (s : Store) (t : String) (h : Inv s) : Inv { s with title := t } := h

theorem sysHead_cons (s : Store) (h : SysHead s) :
    ∃ hd tl, s.rows = hd :: tl ∧ hd.role = Role.system := by
  cases hrows : s.rows with
  | nil =>
    rw [SysHead, hrows] at h
    simp at h
  | cons a t =>
    refine ⟨a, t, rfl, ?_⟩
    rw [SysHead, hrows] at h
    simpa using h

theorem inv_insert (s : Store) (h : Inv s) (role : Role) (content : String) :
    Inv (insertMessage s role content s.rows.length) := by
  obtain ⟨⟨hnd, hid, hca, hct⟩, hdense, hhead⟩ := h
  have hrows : (insertMessage s role content s.rows.length).rows
      = s.rows ++ [{ id := s.nextId, role := role, content := content,
                     idx := s.rows.length, created_at := s.nextTime }] := rfl
  have hnid : (insertMessage s role content s.rows.length).nextId = s.nextId + 1 := rfl
  have hnt : (insertMessage s role content s.rows.length).nextTime = s.nextTime + 1 := rfl
  refine ⟨⟨?_, ?_, ?_, ?_⟩, ?_, ?_⟩
  · rw [hrows, List.map_append, List.nodup_append]
    refine ⟨hnd, List.nodup_singleton _, ?_⟩
    intro a ha hmem
    simp only [List.map_cons, List.map_nil, List.mem_singleton] at hmem
    subst hmem
    exact absurd (hid _ ha) (lt_irrefl _)
  · rw [hrows, hnid]
    intro a ha
    rw [List.map_append, List.mem_append] at ha
    rcases ha with ha | ha
    · exact Nat.lt_succ_of_lt (hid a ha)
    · simp only [List.map_cons, List.map_nil, List.mem_singleton] at ha
      subst ha
      exact Nat.lt_succ_self _
  · rw [hrows, List.map_append, List.pairwise_append]
    refine ⟨hca, List.pairwise_singleton _ _, ?_⟩
    intro a ha b hb
    simp only [List.map_cons, List.map_nil, List.mem_singleton] at hb
    subst hb
    exact hct a ha
  · rw [hrows, hnt]
    intro a ha
    rw [List.map_append, List.mem_append] at ha
    rcases ha with ha | ha
    · exact Nat.lt_succ_of_lt (hct a ha)
    · simp only [List.map_cons, List.map_nil, List.mem_singleton] at ha
      subst ha
      exact Nat.lt_succ_self _
  · unfold Dense
    rw [hrows, List.map_append, List.length_append]
    have hdense2 : s.rows.map (fun x : Msg => x.idx) = List.range s.rows.length := hdense
    rw [hdense2]
    simp [List.range_succ]
  · unfold SysHead
    obtain ⟨hd, tl, hcons, hrole⟩ := sysHead_cons s hhead
    rw [hrows, hcons]
    simp [hrole]

theorem inv_filter_reindex (s : Store) (p : Msg → Bool) (h : Inv s)
    (hkeep : ∀ hd tl, s.rows = hd :: tl → p hd = true) :
    Inv (reindexPass { s with rows := s.rows.filter p }).1 := by
  obtain ⟨⟨hnd, hid, hca, hct⟩, hdense, hhead⟩ := h
  obtain ⟨hd, tl, hcons, hrole⟩ := sysHead_cons s hhead
  have hp : p hd = true := hkeep hd tl hcons
  have hfil : s.rows.filter p = hd :: tl.filter p := by
    rw [hcons, List.filter_cons_of_pos hp]
  have hsub : List.Sublist ((s.rows.filter p).map (fun x : Msg => x.id))
      (s.rows.map (fun x : Msg => x.id)) :=
    List.Sublist.map (fun x : Msg => x.id) (List.filter_sublist s.rows)
  have hsubc : List.Sublist ((s.rows.filter p).map (fun x : Msg => x.created_at))
      (s.rows.map (fun x : Msg => x.created_at)) :=
    List.Sublist.map (fun x : Msg => x.created_at) (List.filter_sublist s.rows)
  have hnd' : ((s.rows.filter p).map (fun x : Msg => x.id)).Nodup := hnd.sublist hsub
  have hpass : (reindexPass { s with rows := s.rows.filter p }).1
      = { s with rows := renumberFrom 0 (s.rows.filter p) } :=
    reindexPass_eq { s with rows := s.rows.filter p } hnd'
  rw [hpass]
  refine ⟨⟨?_, ?_, ?_, ?_⟩, ?_, ?_⟩
  · show ((renumberFrom 0 (s.rows.filter p)).map (fun x : Msg => x.id)).Nodup
    rw [renumberFrom_map_id]
    exact hnd'
  · intro a ha
    rw [show ((renumberFrom 0 (s.rows.filter p)).map (fun x : Msg => x.id))
        = (s.rows.filter p).map (fun x : Msg => x.id) from renumberFrom_map_id 0 _] at ha
    exact hid a (hsub.subset ha)
  · show ((renumberFrom 0 (s.rows.filter p)).map (fun x : Msg => x.created_at)).Pairwise (· < ·)
    rw [renumberFrom_map_created]
    exact hca.sublist hsubc
  · intro a ha
    rw [show ((renumberFrom 0 (s.rows.filter p)).map (fun x : Msg => x.created_at))
        = (s.rows.filter p).map (fun x : Msg => x.created_at) from renumberFrom_map_created 0 _] at ha
    exact hct a (hsubc.subset ha)
  · show (renumberFrom 0 (s.rows.filter p)).map (fun x : Msg => x.idx)
      = List.range (renumberFrom 0 (s.rows.filter p)).length
    rw [renumberFrom_map_idx, length_renumberFrom, List.range_eq_range']
  · show ((renumberFrom 0 (s.rows.filter p)).map (fun x : Msg => x.role)).head? = some Role.system
    rw [hfil]
    simp [renumberFrom, hrole]

theorem inv_take (s : Store) (k : Nat) (h : Inv s) (hk : 0 < k) :
    Inv { s with rows := s.rows.take k } := by
  obtain ⟨⟨hnd, hid, hca, hct⟩, hdense, hhead⟩ := h
  have hsub : List.Sublist ((s.rows.take k).map (fun x : Msg => x.id))
      (s.rows.map (fun x : Msg => x.id)) :=
    List.Sublist.map (fun x : Msg => x.id) (List.take_sublist k s.rows)
  have hsubc : List.Sublist ((s.rows.take k).map (fun x : Msg => x.created_at))
      (s.rows.map (fun x : Msg => x.created_at)) :=
    List.Sublist.map (fun x : Msg => x.created_at) (List.take_sublist k s.rows)
  have hdense2 : s.rows.map (fun x : Msg => x.idx) = List.range s.rows.length := hdense
  refine ⟨⟨hnd.sublist hsub, fun a ha => hid a (hsub.subset ha),
      hca.sublist hsubc, fun a ha => hct a (hsubc.subset ha)⟩, ?_, ?_⟩
  · show (s.rows.take k).map (fun x : Msg => x.idx) = List.range (s.rows.take k).length
    rw [List.map_take, hdense2, List.take_range, List.length_take]
  · obtain ⟨hd, tl, hcons, hrole⟩ := sysHead_cons s hhead
    obtain ⟨k', rfl⟩ := Nat.exists_eq_succ_of_ne_zero (Nat.pos_iff_ne_zero.mp hk)
    show ((s.rows.take (k' + 1)).map (fun x : Msg => x.role)).head? = some Role.system
    rw [hcons]
    simp [hrole]

theorem map_of_pointwise {β : Type} (l : List Msg) (g : Msg → Msg) (f : Msg → β)
    (hfg : ∀ r, f (g r) = f r) : (l.map g).map f = l.map f := by
  induction l with
  | nil => rfl
  | cons a t ih => simp only [List.map_cons, hfg, ih]

theorem inv_updateContent (s : Store) (mid : Nat) (t : String) (h : Inv s) :
    Inv (updateContent s mid t) := by
  obtain ⟨⟨hnd, hid, hca, hct⟩, hdense, hhead⟩ := h
  set g : Msg → Msg := fun r => if r.id = mid then { r with content := t } else r with hg
  have hgi : ∀ r : Msg, (g r).id = r.id := by
    intro r
    by_cases hr : r.id = mid <;> simp [hg, hr]
  have hgx : ∀ r : Msg, (g r).idx = r.idx := by
    intro r
    by_cases hr : r.id = mid <;> simp [hg, hr]
  have hgr : ∀ r : Msg, (g r).role = r.role := by
    intro r
    by_cases hr : r.id = mid <;> simp [hg, hr]
  have hgc : ∀ r : Msg, (g r).created_at = r.created_at := by
    intro r
    by_cases hr : r.id = mid <;> simp [hg, hr]
  have hrows : (updateContent s mid t).rows = s.rows.map g := rfl
  refine ⟨⟨?_, ?_, ?_, ?_⟩, ?_, ?_⟩
  · rw [hrows, map_of_pointwise s.rows g _ hgi]
    exact hnd
  · intro a ha
    rw [hrows, map_of_pointwise s.rows g _ hgi] at ha
    exact hid a ha
  · rw [hrows, map_of_pointwise s.rows g _ hgc]
    exact hca
  · intro a ha
    rw [hrows, map_of_pointwise s.rows g _ hgc] at ha
    exact hct a ha
  · show (updateContent s mid t).rows.map (fun x : Msg => x.idx)
      = List.range (updateContent s mid t).rows.length
    rw [hrows, map_of_pointwise s.rows g _ hgx, List.length_map]
    exact hdense
  · show ((updateContent s mid t).rows.map (fun x : Msg => x.role)).head? = some Role.system
    rw [hrows, map_of_pointwise s.rows g _ hgr]
    exact hhead

theorem inv_saveEditOp (s : Store) (i : Nat) (text : String) (h : Inv s) :
    Inv (saveEditOp s i text) := by
  simp only [saveEditOp]
  split
  · exact h
  · exact inv_updateContent s _ text h

theorem inv_deleteMsgOp (s : Store) (i : Nat) (h : Inv s) : Inv (deleteMsgOp s i).1 := by
  simp only [deleteMsgOp]
  split
  · exact h
  · rename_i m hm
    split
    · exact h
    · rename_i hi0
      show Inv (reindexPass (deleteMessage s m.id)).1
      refine inv_filter_reindex s (fun r => r.id != m.id) h ?_
      intro hd tl hcons
      obtain ⟨i', rfl⟩ := Nat.exists_eq_succ_of_ne_zero hi0
      have hmem : m ∈ tl := by
        have hm2 : s.rows[i' + 1]? = some m := hm
        rw [hcons] at hm2
        rw [List.getElem?_cons_succ] at hm2
        exact List.getElem?_mem hm2
      have hnd := h.1.1
      rw [hcons, List.map_cons, List.nodup_cons] at hnd
      have hne : hd.id ≠ m.id := by
        intro heq
        exact hnd.1 (heq ▸ List.mem_map_of_mem (fun x : Msg => x.id) hmem)
      simpa using hne

theorem inv_core (view rest : List Msg) (s : Store) (h : Inv s)
    (hv : s.rows = view ++ rest) (summ : Option String) :
    Inv (maybeSummarizeCore view s summ).store := by
  simp only [maybeSummarizeCore]
  split
  · exact h
  · rename_i hlen
    split
    · exact h
    · rename_i hmid
      split
      · exact h
      · rename_i summary
        rw [foldl_delete_eq]
        refine inv_filter_reindex _ _ h ?_
        intro hd tl hcons
        -- view is nonempty since its length exceeds SUMMARIZE_AFTER
        cases hview : view with
        | nil =>
          rw [hview] at hlen
          simp [SUMMARIZE_AFTER] at hlen
        | cons vh vt =>
          have hcons2 : s.rows = vh :: (vt ++ rest) := by rw [hv, hview]; rfl
          have hcons3 : vh :: (vt ++ rest) = hd :: tl := by
            rw [← hcons2]
            exact hcons
          have hhd : hd = vh := ((List.cons.inj hcons3).1).symm
          subst hhd
          rw [List.all_eq_true]
          intro m hmm
          -- the middle window sits inside vt
          have hmvt : m ∈ vt := by
            have hce : ∃ ce, max ((hd :: vt).length - KEEP_RECENT) 1 = ce + 1 :=
              Nat.exists_eq_succ_of_ne_zero
                (Nat.pos_iff_ne_zero.mp (lt_of_lt_of_le Nat.zero_lt_one (le_max_right _ 1)))
            obtain ⟨ce, hce⟩ := hce
            rw [hce, List.take_succ_cons] at hmm
            simp only [List.drop_succ_cons, List.drop_zero] at hmm
            exact List.mem_of_mem_take hmm
          have hnd := h.1.1
          rw [hcons2, List.map_cons, List.nodup_cons] at hnd
          have hne : hd.id ≠ m.id := by
            intro heq
            refine hnd.1 ?_
            rw [heq, List.map_append]
            exact List.mem_append_left _ (List.mem_map_of_mem (fun x : Msg => x.id) hmvt)
          simpa using hne

theorem inv_maybeSummarizeOp (s : Store) (summ : Option String) (h : Inv s) :
    Inv (maybeSummarizeOp s summ).store :=
  inv_core (fetchMessages s) [] s h (by simp [fetchMessages]) summ

theorem inv_send_success (s : Store) (text a : String) (summ : Option String) (h : Inv s) :
    Inv ((maybeSummarizeCore (fetchMessages s)
      (if ((fetchMessages s).filter (fun m => m.role != Role.system)).length = 0 then
        { (insertMessage (insertMessage s Role.user (jsTrim text) (fetchMessages s).length)
            Role.assistant (if a = "" then "(no content)" else a)
            ((fetchMessages s).length + 1)) with title := titleOf (jsTrim text) }
      else
        insertMessage (insertMessage s Role.user (jsTrim text) (fetchMessages s).length)
          Role.assistant (if a = "" then "(no content)" else a)
          ((fetchMessages s).length + 1)) summ).store) := by
  have h1 : Inv (insertMessage s Role.user (jsTrim text) (fetchMessages s).length) :=
    inv_insert s h Role.user (jsTrim text)
  have hlen1 : (insertMessage s Role.user (jsTrim text) (fetchMessages s).length).rows.length
      = (fetchMessages s).length + 1 := by
    simp [insertMessage, fetchMessages]
  have h2 : Inv (insertMessage (insertMessage s Role.user (jsTrim text) (fetchMessages s).length)
      Role.assistant (if a = "" then "(no content)" else a)
      ((fetchMessages s).length + 1)) := by
    have h2a := inv_insert (insertMessage s Role.user (jsTrim text) (fetchMessages s).length)
      h1 Role.assistant (if a = "" then "(no content)" else a)
    rw [hlen1] at h2a
    exact h2a
  have hrest : (insertMessage (insertMessage s Role.user (jsTrim text) (fetchMessages s).length)
      Role.assistant (if a = "" then "(no content)" else a)
      ((fetchMessages s).length + 1)).rows
      = fetchMessages s ++
        [{ id := s.nextId, role := Role.user, content := (jsTrim text),
           idx := (fetchMessages s).length, created_at := s.nextTime },
         { id := s.nextId + 1, role := Role.assistant,
           content := (if a = "" then "(no content)" else a),
           idx := (fetchMessages s).length + 1, created_at := s.nextTime + 1 }] := by
    simp [insertMessage, fetchMessages]
  by_cases hns : ((fetchMessages s).filter (fun m => m.role != Role.system)).length = 0
  · rw [if_pos hns]
    exact inv_core (fetchMessages s) _ _ (inv_set_title _ (titleOf (jsTrim text)) h2) hrest summ
  · rw [if_neg hns]
    exact inv_core (fetchMessages s) _ _ h2 hrest summ

theorem inv_sendOp (s : Store) (text : String) (reply summ : Option String) (h : Inv s) :
    Inv (sendOp s text reply summ) := by
  simp only [sendOp]
  by_cases hc : (jsTrim text) = ""
  · rw [if_pos hc]
    exact h
  · rw [if_neg hc]
    cases reply with
    | none => exact inv_insert s h Role.user (jsTrim text)
    | some a => exact inv_send_success s text a summ h

theorem inv_regen_fail (s : Store) (cut : Nat) (h : Inv s) :
    Inv ((s.rows.drop (cut + 1)).foldl (fun acc t => deleteMessage acc t.id) s) := by
  rw [foldl_delete_eq, filter_drop_all_eq_take s.rows (cut + 1) h.1.1]
  exact inv_take s (cut + 1) h (Nat.succ_pos _)

theorem inv_regen_insert (s : Store) (cut : Nat) (c : String) (h : Inv s)
    (hcut : cut < s.rows.length) :
    Inv (insertMessage ((s.rows.drop (cut + 1)).foldl (fun acc t => deleteMessage acc t.id) s)
      Role.assistant c (cut + 1)) := by
  have htake : Inv { s with rows := s.rows.take (cut + 1) } :=
    inv_take s (cut + 1) h (Nat.succ_pos _)
  have hlen : ({ s with rows := s.rows.take (cut + 1) } : Store).rows.length = cut + 1 := by
    simp only [List.length_take]
    omega
  have hins := inv_insert { s with rows := s.rows.take (cut + 1) } htake Role.assistant c
  rw [hlen] at hins
  rw [foldl_delete_eq, filter_drop_all_eq_take s.rows (cut + 1) h.1.1]
  exact hins

theorem inv_regen_some (s : Store) (i : Nat) (target : Msg) (reply : Option String) (h : Inv s)
    (hlt : i < s.rows.length) :
    Inv ((if (if target.role = Role.assistant then (i : Int) - 1 else (i : Int)) < 0 then
        ({ store := s, result := RegenResult.invalidRange, inferenceCalls := 0 } : RegenOut)
      else
        match reply with
        | some content =>
          { store := insertMessage
              ((s.rows.drop ((if target.role = Role.assistant then (i : Int) - 1
                  else (i : Int)).toNat + 1)).foldl (fun acc t => deleteMessage acc t.id) s)
              Role.assistant (if content = "" then "(no content)" else content)
              ((if target.role = Role.assistant then (i : Int) - 1 else (i : Int)).toNat + 1),
            result := RegenResult.regenOk, inferenceCalls := 1 }
        | none =>
          { store := (s.rows.drop ((if target.role = Role.assistant then (i : Int) - 1
              else (i : Int)).toNat + 1)).foldl (fun acc t => deleteMessage acc t.id) s,
            result := RegenResult.regenFail, inferenceCalls := 1 }).store) := by
  by_cases hr : target.role = Role.assistant
  · rw [if_pos hr]
    by_cases hneg : ((i : Int) - 1) < 0
    · rw [if_pos hneg]
      exact h
    · rw [if_neg hneg]
      have hci : ((i : Int) - 1).toNat < s.rows.length := by
        have h1 : ((i : Int) - 1).toNat ≤ i := by
          rw [show ((1 : Int) = ((1 : Nat) : Int)) from rfl, Int.toNat_sub]
          omega
        omega
      cases reply with
      | none => exact inv_regen_fail s _ h
      | some content => exact inv_regen_insert s _ _ h hci
  · rw [if_neg hr]
    have hneg : ¬ ((i : Int) < 0) := by
      simp
    rw [if_neg hneg]
    have hci : ((i : Int)).toNat < s.rows.length := by
      simpa using hlt
    cases reply with
    | none => exact inv_regen_fail s _ h
    | some content => exact inv_regen_insert s _ _ h hci

theorem inv_regenFromOp (s : Store) (i : Nat) (reply : Option String) (h : Inv s) :
    Inv (regenFromOp s i reply).store := by
  simp only [regenFromOp, fetchMessages]
  cases hm : s.rows[i]? with
  | none => exact h
  | some target =>
    exact inv_regen_some s i target reply h (List.getElem?_eq_some.mp hm).1

/-! ### Characterizing the compaction pass branch by branch -/

theorem core_noop_len (view : List Msg) (s : Store) (summ : Option String)
    (h : view.length ≤ SUMMARIZE_AFTER) :
    maybeSummarizeCore view s summ = ⟨s, 0, []⟩ := by
  simp only [maybeSummarizeCore]
  rw [if_pos h]

theorem core_noop_mid (view : List Msg) (s : Store) (summ : Option String)
    (h1 : ¬ view.length ≤ SUMMARIZE_AFTER)
    (h2 : ((view.take (max (view.length - KEEP_RECENT) 1)).drop 1).length = 0) :
    maybeSummarizeCore view s summ = ⟨s, 0, []⟩ := by
  simp only [maybeSummarizeCore]
  rw [if_neg h1, if_pos h2]

theorem core_fail (view : List Msg) (s : Store)
    (h1 : ¬ view.length ≤ SUMMARIZE_AFTER)
    (h2 : ¬ ((view.take (max (view.length - KEEP_RECENT) 1)).drop 1).length = 0) :
    maybeSummarizeCore view s none
      = ⟨s, 1, (view.take (max (view.length - KEEP_RECENT) 1)).drop 1⟩ := by
  simp only [maybeSummarizeCore]
  rw [if_neg h1, if_neg h2]

theorem core_success (view : List Msg) (s : Store) (summary : String)
    (h1 : ¬ view.length ≤ SUMMARIZE_AFTER)
    (h2 : ¬ ((view.take (max (view.length - KEEP_RECENT) 1)).drop 1).length = 0) :
    maybeSummarizeCore view s (some summary)
      = ⟨(reindexPass { s with
            running_summary := (if jsTrim s.running_summary = "" then summary
              else jsTrim s.running_summary ++ "\n\n" ++ summary),
            rows := s.rows.filter (fun r =>
              ((view.take (max (view.length - KEEP_RECENT) 1)).drop 1).all
                (fun m => r.id != m.id)) }).1,
         1, (view.take (max (view.length - KEEP_RECENT) 1)).drop 1⟩ := by
  simp only [maybeSummarizeCore]
  rw [if_neg h1, if_neg h2]
  rw [foldl_delete_eq]

theorem core_title (view : List Msg) (s : Store) (summ : Option String) :
    (maybeSummarizeCore view s summ).store.title = s.title := by
  by_cases h1 : view.length ≤ SUMMARIZE_AFTER
  · rw [core_noop_len view s summ h1]
  · by_cases h2 : ((view.take (max (view.length - KEEP_RECENT) 1)).drop 1).length = 0
    · rw [core_noop_mid view s summ h1 h2]
    · cases summ with
      | none => rw [core_fail view s h1 h2]
      | some summary =>
        rw [core_success view s summary h1 h2]
        show (reindexFrom _ _ 0).1.title = s.title
        obtain ⟨r, hr⟩ := reindexFrom_rows_only _ 0 _
        rw [hr]

theorem middle_len_pos (view : List Msg) (h : SUMMARIZE_AFTER < view.length) :
    ¬ ((view.take (max (view.length - KEEP_RECENT) 1)).drop 1).length = 0 := by
  simp only [List.length_drop, List.length_take, SUMMARIZE_AFTER, KEEP_RECENT] at h ⊢
  omega

/-- Every reachable conversation state satisfies the invariant. -/
theorem reachable_inv : ∀ {s : Store}, Reachable s → Inv s := by
  intro s h
  induction h with
  | init => exact inv_init
  | send s text reply summ _ ih => exact inv_sendOp s text reply summ ih
  | edit s i text _ ih => exact inv_saveEditOp s i text ih
  | del s i _ ih => exact inv_deleteMsgOp s i ih
  | regen s i reply _ ih => exact inv_regenFromOp s i reply ih
  | compact s summ _ ih => exact inv_maybeSummarizeOp s summ ih

/-- The row list of every reachable store is strictly sorted by
`created_at`, validating the reading of the order-by-`created_at` query as
the row list itself. -/
theorem reachable_sorted_created {s : Store} (h : Reachable s) :
    (s.rows.map (fun x : Msg => x.created_at)).Pairwise (· < ·) :=
  (reachable_inv h).1.2.2.1

/-! ### The claims -/

/-- Claim C1: for every conversation, after any completed sequence of
operations (append via dispatch, edit, delete, regeneration, compaction),
the `idx` values of its messages are exactly the contiguous range `0..N-1`
with no gaps or duplicates, and the turn at `idx 0` has role `system`. -/
theorem claim1_idx_contiguous (s : Store) (h : Reachable s) :
    (fetchMessages s).map (fun m : Msg => m.idx) = List.range (fetchMessages s).length ∧
    ((fetchMessages s).map (fun m : Msg => m.role)).head? = some Role.system := by
  obtain ⟨_, hdense, hhead⟩ := reachable_inv h
  exact ⟨hdense, hhead⟩

/-- Witness for C1 at the freshly seeded conversation. -/
theorem claim1_idx_contiguous_witness :
    (fetchMessages initStore).map (fun m : Msg => m.idx)
      = List.range (fetchMessages initStore).length ∧
    ((fetchMessages initStore).map (fun m : Msg => m.role)).head? = some Role.system :=
  claim1_idx_contiguous initStore Reachable.init

/-- Claim C4: for every conversation, `load` returns the conversation's
messages sorted ascending by `idx`. -/
theorem claim4_load_sorted (s : Store) (h : Reachable s) :
    (fetchMessages s).Pairwise (fun a b : Msg => a.idx ≤ b.idx) := by
  have hdense : (fetchMessages s).map (fun m : Msg => m.idx)
      = List.range (fetchMessages s).length :=
    (reachable_inv h).2.1
  have hp : ((fetchMessages s).map (fun m : Msg => m.idx)).Pairwise (· ≤ ·) := by
    rw [hdense]
    exact (List.pairwise_lt_range _).imp le_of_lt
  rw [List.pairwise_map] at hp
  exact hp

/-- Witness for C4 at the freshly seeded conversation. -/
theorem claim4_load_sorted_witness :
    (fetchMessages initStore).Pairwise (fun a b : Msg => a.idx ≤ b.idx) :=
  claim4_load_sorted initStore Reachable.init

/-- Claim C8: for every sequence, `delete(0)` fails with `Forbidden` and
leaves the sequence unchanged — the store is exactly as before, no delete,
index update, or other write having been issued. -/
theorem claim8_delete_zero_forbidden (s : Store) (h : Reachable s) :
    deleteMsgOp s 0 = (s, DeleteResult.forbidden) := by
  obtain ⟨hd, tl, hcons, _⟩ := sysHead_cons s (reachable_inv h).2.2
  simp only [deleteMsgOp, fetchMessages]
  rw [hcons]
  simp

/-- Witness for C8 at the freshly seeded conversation. -/
theorem claim8_delete_zero_forbidden_witness :
    deleteMsgOp initStore 0 = (initStore, DeleteResult.forbidden) :=
  claim8_delete_zero_forbidden initStore Reachable.init

/-- Claim C10: deleting at an index at or beyond the sequence length is a
silent no-op — the `noTurn` outcome surfaces no error, no write is issued,
and the store is unchanged. -/
theorem claim10_delete_noop (s : Store) (i : Nat)
    (h : (fetchMessages s).length ≤ i) :
    deleteMsgOp s i = (s, DeleteResult.noTurn) := by
  simp only [deleteMsgOp]
  rw [List.getElem?_eq_none h]

/-- Witness for C10: deleting index 5 of the one-turn conversation. -/
theorem claim10_delete_noop_witness :
    (fetchMessages initStore).length ≤ 5 ∧
    deleteMsgOp initStore 5 = (initStore, DeleteResult.noTurn) :=
  ⟨by decide, claim10_delete_noop initStore 5 (by decide)⟩

/-- Claim C5: the delete-reindex pass is idempotent — on any store with
distinct row ids, a second pass right after a first one issues zero
further index-update writes. -/
theorem claim5_reindex_idempotent (s : Store)
    (h : (s.rows.map (fun x : Msg => x.id)).Nodup) :
    (reindexPass (reindexPass s).1).2 = 0 := by
  rw [reindexPass_eq s h]
  show (reindexFrom { s with rows := renumberFrom 0 s.rows } (renumberFrom 0 s.rows) 0).2 = 0
  exact reindexFrom_writes_zero s.rows 0 _

/-- Witness for C5 on a store with a stale gapped index. -/
theorem claim5_reindex_idempotent_witness :
    (storeGap.rows.map (fun x : Msg => x.id)).Nodup ∧
    (reindexPass (reindexPass storeGap).1).2 = 0 :=
  ⟨by decide, claim5_reindex_idempotent storeGap (by decide)⟩

/-- Claim C6: on every sequence of length at most `SUMMARIZE_AFTER`, the
compaction pass is a no-op — zero summarizer calls and the store, hence
the sequence and `running_summary`, unchanged. -/
theorem claim6_compaction_noop (s : Store) (summ : Option String)
    (h : (fetchMessages s).length ≤ SUMMARIZE_AFTER) :
    maybeSummarizeOp s summ = ⟨s, 0, []⟩ := by
  simp only [maybeSummarizeOp]
  exact core_noop_len (fetchMessages s) s summ h

/-- Witness for C6 at the freshly seeded conversation. -/
theorem claim6_compaction_noop_witness :
    (fetchMessages initStore).length ≤ SUMMARIZE_AFTER ∧
    maybeSummarizeOp initStore none = ⟨initStore, 0, []⟩ :=
  ⟨by decide, claim6_compaction_noop initStore none (by decide)⟩

/-- Counterexample to claim C2: on the 21-turn sequence the compaction
pass does not summarize the turns with `idx 1..9` (9 turns) — the middle
window `slice(1, max(21 - 10, 1)) = slice(1, 11)` holds the 10 turns with
`idx 1..10`. -/
theorem claim2_counterexample :
    ¬ ((maybeSummarizeOp store21 (some "S")).summarized.map (fun m : Msg => m.idx)
        = [1, 2, 3, 4, 5, 6, 7, 8, 9]) := by
  decide

/-- Claim C2 as amended: with `SUMMARIZE_AFTER = 20` and `KEEP_RECENT = 10`,
compaction on a 21-turn sequence (idx 0 system plus 20 other turns) makes
one summarizer call over exactly the turns with `idx 1..10` (10 turns),
appends the summary to the running summary, and leaves the system turn
plus the 10 most recent turns reindexed contiguously as `0..10`. -/
theorem claim2_amended_window :
    (maybeSummarizeOp store21 (some "S")).summarized.map (fun m : Msg => m.idx)
      = [1, 2, 3, 4, 5, 6, 7, 8, 9, 10] ∧
    (maybeSummarizeOp store21 (some "S")).summarizerCalls = 1 ∧
    (maybeSummarizeOp store21 (some "S")).store.running_summary = "S" ∧
    (fetchMessages (maybeSummarizeOp store21 (some "S")).store).map (fun m : Msg => m.idx)
      = List.range 11 ∧
    ((fetchMessages (maybeSummarizeOp store21 (some "S")).store).map
        (fun m : Msg => m.role)).head? = some Role.system := by
  decide

/-- Counterexample to claim C3: on the one-turn sequence `[system]`,
`regenerate(0)` does not fail with `InvalidRange` — `cutAt = 0`, one
inference call is made, and the reply is appended at `idx 1`. -/
theorem claim3_counterexample :
    (regenFromOp initStore 0 (some "hi")).result ≠ RegenResult.invalidRange ∧
    (regenFromOp initStore 0 (some "hi")).inferenceCalls = 1 ∧
    (fetchMessages (regenFromOp initStore 0 (some "hi")).store).map
        (fun m : Msg => (m.role, m.idx)) = [(Role.system, 0), (Role.assistant, 1)] := by
  decide

/-- Claim C3 as amended: on `[system]`, `regenerate(0)` does not fail with
`InvalidRange` (the system turn is not an assistant turn, so `cutAt = 0`):
no turns are deleted, exactly one inference call is made, and on success
an assistant turn is appended at `idx 1` (on failure the sequence is left
as the sole system turn). -/
theorem claim3_amended_regen_zero (reply : Option String) :
    (regenFromOp initStore 0 reply).result ≠ RegenResult.invalidRange ∧
    (regenFromOp initStore 0 reply).inferenceCalls = 1 ∧
    (fetchMessages (regenFromOp initStore 0 reply).store).map
        (fun m : Msg => (m.role, m.idx))
      = (match reply with
         | none => [(Role.system, 0)]
         | some _ => [(Role.system, 0), (Role.assistant, 1)]) := by
  cases reply with
  | none => decide
  | some a =>
    refine ⟨?_, rfl, rfl⟩
    show RegenResult.regenOk ≠ RegenResult.invalidRange
    decide

/-- Counterexample to claim C7: when the stored summary carries edge
whitespace (here `" A "`, exactly what a summarizer returning padded text
leaves behind), a successful compaction does not append to the previous
summary verbatim — the code trims it first, storing `"A\n\nB"` instead of
`" A \n\nB"`. -/
theorem claim7_counterexample :
    (maybeSummarizeOp store21ws (some "B")).store.running_summary = "A\n\nB" ∧
    store21ws.running_summary = " A " ∧
    (maybeSummarizeOp store21ws (some "B")).store.running_summary
      ≠ store21ws.running_summary ++ "\n\n" ++ "B" := by
  decide

/-- Claim C7 as amended: on every successful compaction, the new
`running_summary` is the whitespace-trimmed previous summary followed by a
blank line and the newly returned summary when the trimmed previous
summary is nonempty (just the new summary when it is empty); the trimmed
previous text is preserved at the front, never replaced. -/
theorem claim7_amended_grow (s : Store) (summary : String)
    (h : SUMMARIZE_AFTER < (fetchMessages s).length) :
    (maybeSummarizeOp s (some summary)).store.running_summary
      = (if jsTrim s.running_summary = "" then summary
         else jsTrim s.running_summary ++ "\n\n" ++ summary) := by
  have h1 : ¬ (fetchMessages s).length ≤ SUMMARIZE_AFTER := not_le.mpr h
  have h2 := middle_len_pos (fetchMessages s) h
  simp only [maybeSummarizeOp]
  rw [core_success (fetchMessages s) s summary h1 h2]
  show (reindexFrom _ _ 0).1.running_summary = _
  obtain ⟨r, hr⟩ := reindexFrom_rows_only _ 0 _
  rw [hr]

/-- Witness for the amended C7 on the 21-turn sequence. -/
theorem claim7_amended_grow_witness :
    SUMMARIZE_AFTER < (fetchMessages store21).length ∧
    (maybeSummarizeOp store21 (some "S")).store.running_summary
      = (if jsTrim store21.running_summary = "" then "S"
         else jsTrim store21.running_summary ++ "\n\n" ++ "S") :=
  ⟨by decide, claim7_amended_grow store21 "S" (by decide)⟩

/-- Counterexample to claim C9: after a dispatch whose inference call
failed, the sequence is `[system, user]` with no assistant turn, so the
next successful dispatch appends the very first assistant reply of the
conversation — yet the title is not set, because the code keys on the
pre-dispatch sequence having zero non-system turns, not on the reply being
the first assistant reply. -/
theorem claim9_counterexample :
    (∀ m ∈ fetchMessages storeSysUser, m.role ≠ Role.assistant) ∧
    (sendOp storeSysUser "hello" (some "hi") none).title = "New chat" ∧
    ("New chat" : String) ≠ titleOf (jsTrim "hello") := by
  decide

/-- Claim C9 as amended: during a successful dispatch,
`Conversation.title` is set if and only if the pre-dispatch sequence
contains zero non-system turns, and the title set is the trimmed sent
user text with whitespace runs collapsed to single spaces and truncated
to 60 characters. -/
theorem claim9_amended_title (s : Store) (text a : String) (summ : Option String)
    (h : jsTrim text ≠ "") :
    (sendOp s text (some a) summ).title
      = (if ((fetchMessages s).filter (fun m => m.role != Role.system)).length = 0
         then titleOf (jsTrim text) else s.title) := by
  simp only [sendOp]
  rw [if_neg h]
  by_cases hns : ((fetchMessages s).filter (fun m => m.role != Role.system)).length = 0
  · rw [if_pos hns, if_pos hns]
    rw [core_title]
  · rw [if_neg hns, if_neg hns]
    rw [core_title]
    rfl

/-- Witness for the amended C9 on the freshly seeded conversation. -/
theorem claim9_amended_title_witness :
    jsTrim "hi" ≠ "" ∧
    (sendOp initStore "hi" (some "ok") none).title
      = (if ((fetchMessages initStore).filter (fun m => m.role != Role.system)).length = 0
         then titleOf (jsTrim "hi") else initStore.title) :=
  ⟨by decide, claim9_amended_title initStore "hi" "ok" none (by decide)⟩

end ChatWeb
